import Mathlib

/-!
Shallow embedding of the exchange classification and caching core of the
`blockchain-analyzer` repository (file `src/unnamed/part_002`), together with
theorems settling the spec claims about it.

The embedding models JavaScript strings by Lean `String`, JS `Map` objects by
insertion-ordered association lists, the Redis cache by an explicit state
record, and the effectful functions (`getAllExchangesWithCache`,
`getExchangeTypeMap`) by total functions over an environment describing the
outcome of each I/O operation; a thrown exception is an `Except.error`.
-/

namespace BlockchainAnalyzer

/-! ### String primitives (JS semantics, kernel-reducible) -/

/-- Character equality via code points (JS `===` on one-char slices). -/
def charEq (a b : Char) : Bool := a.toNat == b.toNat

/-- Equality of char lists, the data of JS strings. -/
def charListEq : List Char → List Char → Bool
  | [], [] => true
  | a :: as, b :: bs => charEq a b && charListEq as bs
  | _, _ => false

/-- JS string `===`. -/
def strEq (a b : String) : Bool := charListEq a.data b.data

/-- `needle` occurs at the start of `hay` (JS `startsWith`). -/
def startsWithData : List Char → List Char → Bool
  | [], _ => true
  | _ :: _, [] => false
  | a :: as, b :: bs => charEq a b && startsWithData as bs

/-- `needle` occurs somewhere in `hay`. -/
def containsSubAux (needle : List Char) : List Char → Bool
  | [] => startsWithData needle []
  | h :: t => startsWithData needle (h :: t) || containsSubAux needle t

/-- JS `String.prototype.includes`: `sub` occurs as a substring of `s`. -/
def strContains (s sub : String) : Bool := containsSubAux sub.data s.data

/-- JS `String.prototype.toLowerCase` (all strings involved are ASCII). -/
def toLowerStr (s : String) : String := ⟨s.data.map Char.toLower⟩

/-- JS truthiness of a string: `false` exactly on the empty string. -/
def strTruthy (s : String) : Bool :=
  match s.data with
  | [] => false
  | _ :: _ => true

/-- JS truthiness of a possibly-absent string field. -/
def truthyStr : Option String → Bool
  | none => false
  | some s => strTruthy s

/-- Membership of a string in a list of strings (JS `Map.has` over keys). -/
def memberStr (k : String) : List String → Bool
  | [] => false
  | s :: rest => strEq s k || memberStr k rest

/-! ### JS `Map` model: insertion-ordered association lists

`Map.set` updates the first (unique) occurrence in place, else appends;
`Map.get`/`Map.has` search by key. -/

def mapGet {α : Type} : List (String × α) → String → Option α
  | [], _ => none
  | p :: rest, k => if strEq p.1 k then some p.2 else mapGet rest k

def mapHas {α : Type} (m : List (String × α)) (k : String) : Bool :=
  m.any fun p => strEq p.1 k

def mapSet {α : Type} : List (String × α) → String → α → List (String × α)
  | [], k, v => [(k, v)]
  | p :: rest, k, v => if strEq p.1 k then (p.1, v) :: rest else p :: mapSet rest k v

/-- `new Map(pairs)`: insert the pairs left to right. -/
def mapFromPairs (pairs : List (String × Bool)) : List (String × Bool) :=
  pairs.foldl (fun m p => mapSet m p.1 p.2) []

/-! ### The classification tables (verbatim from the source) -/

/-- Comprehensive DEX keywords - if exchange name/ID contains any of these,
it's a DEX. -/
def DEX_KEYWORDS : List String := [
  "dex", "swap", "uniswap", "pancakeswap", "sushiswap", "curve", "balancer",
  "1inch", "dodo", "kyberswap", "raydium", "orca", "serum", "jupiter",
  "cowswap", "matcha", "paraswap", "airswap", "bancor", "idex", "oasis",
  "augur", "gnosis", "radar", "etherdelta", "forkdelta", "traderjoe",
  "trader joe", "pangolin", "spookyswap", "spiritswap", "quickswap",
  "solarbeam", "beamswap", "stellaswap", "honeyswap", "levinswap", "ubeswap",
  "mobius", "elk", "shibaswap", "apeswap", "biswap", "babyswap", "mdex",
  "mooniswap", "swopfi", "defiswap", "fluid", "dexalot", "venus", "compound",
  "aave", "synthetix", "0x", "protocol", "v2", "v3", "v4", "abstract"]

/-- Known CEX exchanges to exclude (even if they contain DEX keywords). -/
def knownCEX : List String := [
  "binance", "coinbase", "kraken", "bitfinex", "bitstamp", "gemini",
  "okx", "okex", "huobi", "kucoin", "bybit", "gate", "mexc", "bitget",
  "crypto.com", "cryptocom", "ftx", "ftx.us", "coinbase pro", "coinbasepro",
  "bitmex", "deribit", "bitflyer", "upbit", "bithumb",
  "poloniex", "bittrex", "bitmart", "lbank", "hotbit", "bibox", "probit",
  "bitrue", "coinex", "whitebit", "bitforex", "zb.com", "zb", "digifinex"]

/-! ### Classifier (`classifyExchange`) -/

/-- The known-CEX test of `classifyExchange` (and of the inlined copy in
`getExchangeTypeMap`), on already-lowercased id and name. -/
def knownCEXHit (normalizedId normalizedName : String) : Bool :=
  knownCEX.any fun cex =>
    let normalizedCex := toLowerStr cex
    strEq normalizedId normalizedCex ||
    strEq normalizedName normalizedCex ||
    strContains normalizedId normalizedCex ||
    strContains normalizedName normalizedCex

/-- The DEX-keyword test of `classifyExchange` (and of the inlined copy in
`getExchangeTypeMap`), on already-lowercased id and name. -/
def dexKeywordHit (normalizedId normalizedName : String) : Bool :=
  DEX_KEYWORDS.any fun keyword =>
    let normalizedKeyword := toLowerStr keyword
    strContains normalizedId normalizedKeyword ||
    strContains normalizedName normalizedKeyword

/-- Known-CEX test on raw id/name (lowercasing first, as the source does). -/
def matchesKnownCEX (id name : String) : Bool :=
  knownCEXHit (toLowerStr id) (toLowerStr name)

/-- DEX-keyword test on raw id/name. -/
def matchesDEXKeyword (id name : String) : Bool :=
  dexKeywordHit (toLowerStr id) (toLowerStr name)

/-- `classifyExchange(id, name, apiCentralized?)`: known-CEX allow-list first,
then DEX keywords, then the API flag with default `true`. -/
def classifyExchange (id name : String) (apiCentralized : Option Bool) : Bool :=
  if matchesKnownCEX id name then true
  else if matchesDEXKeyword id name then false
  else apiCentralized.getD true

/-! ### Basic lemmas on the string primitives -/

theorem charEq_iff {a b : Char} : charEq a b = true ↔ a = b := by
  unfold charEq
  rw [beq_iff_eq]
  constructor
  · intro h
    exact Char.ext (UInt32.ext h)
  · intro h; rw [h]

theorem charListEq_iff : ∀ {l1 l2 : List Char}, charListEq l1 l2 = true ↔ l1 = l2
  | [], [] => by simp [charListEq]
  | [], _ :: _ => by simp [charListEq]
  | _ :: _, [] => by simp [charListEq]
  | a :: as, b :: bs => by
      simp only [charListEq, Bool.and_eq_true, charEq_iff, charListEq_iff,
        List.cons.injEq]

theorem strEq_iff {a b : String} : strEq a b = true ↔ a = b := by
  unfold strEq
  rw [charListEq_iff]
  constructor
  · intro h
    cases a; cases b
    exact congrArg String.mk h
  · intro h; rw [h]

theorem strEq_refl (a : String) : strEq a a = true := strEq_iff.mpr rfl

theorem strEq_eq_false_iff {a b : String} : strEq a b = false ↔ a ≠ b := by
  constructor
  · intro h hab
    rw [hab, strEq_refl b] at h
    exact Bool.noConfusion h
  · intro h
    cases hse : strEq a b
    · rfl
    · exact absurd (strEq_iff.mp hse) h

theorem strTruthy_iff {s : String} : strTruthy s = true ↔ s ≠ "" := by
  unfold strTruthy
  cases s with
  | mk data =>
    cases data with
    | nil => simp [String.ext_iff]
    | cons c cs => simp [String.ext_iff]

theorem memberStr_iff {k : String} : ∀ {l : List String},
    memberStr k l = true ↔ k ∈ l
  | [] => by simp [memberStr]
  | s :: rest => by
      simp only [memberStr, Bool.or_eq_true, strEq_iff, memberStr_iff,
        List.mem_cons]
      constructor
      · rintro (h | h)
        · exact Or.inl h.symm
        · exact Or.inr h
      · rintro (h | h)
        · exact Or.inl h.symm
        · exact Or.inr h

/-! ### Claim C1 -/

/-- **C1.** Whenever the lowercased identifier or display name equals, or
contains as a substring, an entry of the fixed `knownCEX` allow-list,
`classifyExchange` returns `true`, for every value of the optional source flag
(and hence even when a DEX keyword is also present: the allow-list is checked
first). -/
theorem classifyExchange_allowlist_precedence
    (id name : String) (flag : Option Bool)
    (h : ∃ cex ∈ knownCEX,
      strEq (toLowerStr id) (toLowerStr cex) = true ∨
      strEq (toLowerStr name) (toLowerStr cex) = true ∨
      strContains (toLowerStr id) (toLowerStr cex) = true ∨
      strContains (toLowerStr name) (toLowerStr cex) = true) :
    classifyExchange id name flag = true := by
  have hcex : matchesKnownCEX id name = true := by
    unfold matchesKnownCEX knownCEXHit
    rw [List.any_eq_true]
    obtain ⟨cex, hmem, hcase⟩ := h
    refine ⟨cex, hmem, ?_⟩
    simp only [Bool.or_eq_true]
    rcases hcase with h1 | h2 | h3 | h4
    · exact Or.inl (Or.inl (Or.inl h1))
    · exact Or.inl (Or.inl (Or.inr h2))
    · exact Or.inl (Or.inr h3)
    · exact Or.inr h4
  unfold classifyExchange
  rw [hcex]
  rfl

/-- **C1 witness.** The identifier `"binance-v3"` contains allow-list entry
`"binance"` (and DEX keyword `"v3"`), and is classified centralized even with
a decentralized source flag. -/
theorem classifyExchange_allowlist_precedence_witness :
    classifyExchange "binance-v3" "Binance V3" (some false) = true :=
  classifyExchange_allowlist_precedence "binance-v3" "Binance V3" (some false)
    ⟨"binance", by decide, Or.inr (Or.inr (Or.inl (by decide)))⟩

/-! ### Claim C6 -/

/-- **C6.** With no allow-list match, `classifyExchange` returns `false` when
either lowercased field contains a DEX keyword as a substring, and otherwise
returns the supplied source flag when present and `true` when absent. -/
theorem classifyExchange_keyword_and_fallback
    (id name : String) (flag : Option Bool)
    (h : matchesKnownCEX id name = false) :
    (matchesDEXKeyword id name = true → classifyExchange id name flag = false) ∧
    (matchesDEXKeyword id name = false → classifyExchange id name flag = flag.getD true) := by
  constructor
  · intro hk
    unfold classifyExchange
    rw [h, hk]
    rfl
  · intro hk
    unfold classifyExchange
    rw [h, hk]
    rfl

/-- **C6 witness.** `"uniswap-v3"` matches no allow-list entry and contains
keyword `"uniswap"`, so it is classified decentralized. -/
theorem classifyExchange_keyword_and_fallback_witness :
    classifyExchange "uniswap-v3" "Uniswap V3" none = false :=
  (classifyExchange_keyword_and_fallback "uniswap-v3" "Uniswap V3" none
    (by decide)).1 (by decide)

/-! ### Claim C9 -/

/-- **C9 counterexample.** The claim asserts that on two empty fields the
result is the default `true` for *every* value of the optional source flag;
but with `sourceFlag = some false` the code returns the flag, hence `false`. -/
theorem classifyExchange_empty_flag_counterexample :
    classifyExchange "" "" (some false) = false := by decide

/-- **C9 (amended).** `classifyExchange` is a total function; on two empty
fields neither list matches and the result is the step-3 fallback: the
supplied source flag when present, `true` when absent. -/
theorem classifyExchange_empty_fallback (flag : Option Bool) :
    classifyExchange "" "" flag = flag.getD true := by
  unfold classifyExchange
  rw [show matchesKnownCEX "" "" = false by decide,
    show matchesDEXKeyword "" "" = false by decide]
  simp

/-! ### Data model: `Exchange` records and raw API records -/

/-- The `Exchange` interface of the source. The numeric 24h-volume payload is
inert pass-through data; it is modelled by a rational. -/
structure Exchange where
  id : String
  name : String
  centralized : Bool
  country : Option String := none
  trust_score : Option Int := none
  trade_volume_24h_btc : Option Rat := none
  year_established : Option Int := none
  image : Option String := none
  url : Option String := none
deriving DecidableEq

/-- A raw record as returned by the remote venue-listing endpoint: every field
may be absent (`none` doubles for JS `undefined`/`null`). -/
structure RawExchange where
  id : Option String := none
  name : Option String := none
  centralized : Option Bool := none
  country : Option String := none
  trust_score : Option Int := none
  trade_volume_24h_btc : Option Rat := none
  year_established : Option Int := none
  image : Option String := none
  url : Option String := none
deriving DecidableEq

/-! ### Collector (`fetchAllExchanges`) -/

/-- Outcome of one page request against the remote catalog endpoint. -/
inductive PageResult where
  | ok (records : List RawExchange)
  | fetchError
deriving DecidableEq

/-- Page size used by the collector. -/
def perPage : Nat := 250

/-- The collector's pagination loop over the successive page responses:
stops on a fetch error, an empty page, or a short page (and an exhausted
response list stands for the endpoint returning empty pages from there on). -/
def collectPages : List PageResult → List RawExchange
  | [] => []
  | PageResult.fetchError :: _ => []
  | PageResult.ok records :: rest =>
      if records.length == 0 then []
      else if records.length < perPage then records
      else records ++ collectPages rest

/-- Normalization of one raw record (the body of the collector's `forEach`):
records with a falsy `id` are dropped; the name falls back to the id; the
classification runs §4.1 with the source's own flag as fallback. -/
def normalizeRecord (r : RawExchange) : Option Exchange :=
  if truthyStr r.id then
    let id := r.id.getD ""
    let name :=
      match r.name with
      | some n => if strTruthy n then n else id
      | none => id
    some { id := id, name := name,
           centralized := classifyExchange id name r.centralized,
           country := r.country, trust_score := r.trust_score,
           trade_volume_24h_btc := r.trade_volume_24h_btc,
           year_established := r.year_established,
           image := r.image, url := r.url }
  else none

/-- First-wins deduplication by id, with the set of already-seen ids
accumulated (the JS `Map`-insertion loop). -/
def dedupGo : List Exchange → List String → List Exchange
  | [], _ => []
  | x :: rest, seen =>
      if memberStr x.id seen then dedupGo rest seen
      else x :: dedupGo rest (x.id :: seen)

/-- Deduplicate a venue list by identifier, keeping the first-seen record. -/
def dedupById (xs : List Exchange) : List Exchange := dedupGo xs []

/-- `fetchAllExchanges()`: run the pagination loop, normalize and classify
each record, then deduplicate by id. -/
def fetchAllExchanges (pages : List PageResult) : List Exchange :=
  let exchanges := (collectPages pages).filterMap normalizeRecord
  dedupById exchanges

/-! ### Deduplication lemmas -/

theorem mem_of_mem_dedupGo :
    ∀ (xs : List Exchange) (seen : List String) (e : Exchange),
      e ∈ dedupGo xs seen → e ∈ xs
  | [], _, _, h => by simp [dedupGo] at h
  | x :: rest, seen, e, h => by
      unfold dedupGo at h
      by_cases hm : memberStr x.id seen = true
      · rw [if_pos hm] at h
        exact List.mem_cons_of_mem x (mem_of_mem_dedupGo rest seen e h)
      · rw [if_neg hm] at h
        rcases List.mem_cons.mp h with h1 | h2
        · exact h1 ▸ List.mem_cons_self x rest
        · exact List.mem_cons_of_mem x (mem_of_mem_dedupGo rest (x.id :: seen) e h2)

theorem dedupGo_spec :
    ∀ (xs : List Exchange) (seen : List String) (e : Exchange),
      e ∈ dedupGo xs seen →
      memberStr e.id seen = false ∧
      xs.find? (fun x => strEq x.id e.id) = some e
  | [], _, _, h => by simp [dedupGo] at h
  | x :: rest, seen, e, h => by
      unfold dedupGo at h
      by_cases hm : memberStr x.id seen = true
      · rw [if_pos hm] at h
        obtain ⟨hseen, hfind⟩ := dedupGo_spec rest seen e h
        have hne : strEq x.id e.id = false := by
          cases hxe : strEq x.id e.id
          · rfl
          · exfalso
            rw [strEq_iff.mp hxe] at hm
            rw [hseen] at hm
            exact Bool.noConfusion hm
        refine ⟨hseen, ?_⟩
        simp only [List.find?_cons, hne]
        exact hfind
      · rw [if_neg hm] at h
        rcases List.mem_cons.mp h with h1 | h2
        · subst h1
          refine ⟨Bool.not_eq_true _ ▸ hm, ?_⟩
          simp [List.find?_cons, strEq_refl]
        · obtain ⟨hseen, hfind⟩ := dedupGo_spec rest (x.id :: seen) e h2
          have hcons : (strEq x.id e.id || memberStr e.id seen) = false := hseen
          have hxe : strEq x.id e.id = false := by
            cases hxe : strEq x.id e.id
            · rfl
            · exfalso
              rw [hxe] at hcons
              simp at hcons
          have hrest : memberStr e.id seen = false := by
            rw [hxe] at hcons
            simpa using hcons
          refine ⟨hrest, ?_⟩
          simp only [List.find?_cons, hxe]
          exact hfind

theorem dedupGo_nodup :
    ∀ (xs : List Exchange) (seen : List String),
      ((dedupGo xs seen).map (fun e => e.id)).Nodup
  | [], _ => by simp [dedupGo]
  | x :: rest, seen => by
      unfold dedupGo
      by_cases hm : memberStr x.id seen = true
      · rw [if_pos hm]
        exact dedupGo_nodup rest seen
      · rw [if_neg hm]
        rw [List.map_cons, List.nodup_cons]
        refine ⟨?_, dedupGo_nodup rest (x.id :: seen)⟩
        intro hmem
        obtain ⟨e, he, hid⟩ := List.mem_map.mp hmem
        obtain ⟨hseen, _⟩ := dedupGo_spec rest (x.id :: seen) e he
        unfold memberStr at hseen
        rw [hid, strEq_refl] at hseen
        exact Bool.noConfusion (Bool.true_or _ ▸ hseen)

/-! ### Claim C8 -/

/-- **C8.** The collector's result: it is exactly the first-wins-by-id
deduplication of the normalized records; a record with a falsy identifier is
dropped by normalization; every returned venue has a non-empty identifier and
is the *first* normalized record bearing its identifier (so a later duplicate
never replaces an earlier one); and the returned identifiers are pairwise
distinct. -/
theorem fetchAllExchanges_dedup_first_wins (pages : List PageResult) :
    fetchAllExchanges pages =
      dedupById ((collectPages pages).filterMap normalizeRecord) ∧
    (∀ r : RawExchange, truthyStr r.id = false → normalizeRecord r = none) ∧
    (∀ e ∈ fetchAllExchanges pages, e.id ≠ "" ∧
      ((collectPages pages).filterMap normalizeRecord).find?
        (fun x => strEq x.id e.id) = some e) ∧
    ((fetchAllExchanges pages).map (fun e => e.id)).Nodup := by
  refine ⟨rfl, ?_, ?_, ?_⟩
  · intro r hr
    unfold normalizeRecord
    rw [hr]
    simp
  · intro e he
    have he' : e ∈ dedupGo ((collectPages pages).filterMap normalizeRecord) [] := he
    obtain ⟨_, hfind⟩ := dedupGo_spec _ _ _ he'
    refine ⟨?_, hfind⟩
    have hmem := mem_of_mem_dedupGo _ _ _ he'
    obtain ⟨r, _, hnorm⟩ := List.mem_filterMap.mp hmem
    unfold normalizeRecord at hnorm
    by_cases htr : truthyStr r.id = true
    · rw [if_pos htr] at hnorm
      obtain ⟨s, hs⟩ : ∃ s, r.id = some s := by
        cases hid : r.id
        · rw [hid] at htr; exact absurd htr (by simp [truthyStr])
        · exact ⟨_, rfl⟩
      have hid : e.id = s := by
        cases hnorm
        simp [hs]
      rw [hid]
      rw [hs] at htr
      exact strTruthy_iff.mp htr
    · rw [if_neg htr] at hnorm
      exact Option.noConfusion hnorm
  · exact dedupGo_nodup _ _

/-! ### Cache model

The Redis store holds the parsed payloads under the two fixed keys; the
environment records whether each I/O operation succeeds.  `getRedisClient`
failing (no `REDIS_URL`, or the connect rejecting) is `redisOk = false`; it is
the one failure the source performs *outside* any `try`/`catch`.  A failed
`get` (or an unparsable payload, caught by the same `try`) is `…ReadOk =
false`; a failed `setEx` is `…WriteOk = false`.  Client teardown (`quit`) is
abstracted away. -/

structure CacheState where
  catalog : Option (List Exchange) := none
  typeMap : Option (List (String × Bool)) := none
deriving DecidableEq

structure Env where
  redisOk : Bool := true
  catalogReadOk : Bool := true
  catalogWriteOk : Bool := true
  mapReadOk : Bool := true
  mapWriteOk : Bool := true
  pages : List PageResult := []

/-! ### Catalog Cache (`getAllExchangesWithCache`) -/

/-- The per-entry re-classification applied on a catalog cache hit: re-run the
classifier on the stored id/name, passing the cached `centralized` as the
fallback, exactly as the source does. -/
def reclassifyEntry (exchange : Exchange) : Exchange :=
  { exchange with
    centralized := classifyExchange exchange.id exchange.name
      (some exchange.centralized) }

/-- The cache-hit branch: deduplicate the cached payload, then re-classify
every entry. -/
def reclassifyCatalog (cachedData : List Exchange) : List Exchange :=
  (dedupById cachedData).map reclassifyEntry

/-- Comparator used to sort the fresh catalog (`localeCompare` on names,
modelled as code-point order; no claim depends on the collation). -/
def nameLe (a b : Exchange) : Bool :=
  match compare a.name b.name with
  | Ordering.gt => false
  | _ => true

/-- Stable insertion used by `sortByName`. -/
def insertByName (e : Exchange) : List Exchange → List Exchange
  | [] => [e]
  | x :: rest => if nameLe x e then x :: insertByName e rest else e :: x :: rest

/-- Sort a venue list by display name ascending. -/
def sortByName (xs : List Exchange) : List Exchange :=
  xs.foldl (fun acc e => insertByName e acc) []

/-- `getAllExchangesWithCache()`.  Obtaining the client happens before the
`try`, so `redisOk = false` is a thrown error.  A read failure is caught and
falls through to the fresh fetch; a write failure is caught and only skips
the state update. -/
def getAllExchangesWithCache (env : Env) (st : CacheState) :
    Except Unit (List Exchange × CacheState) :=
  if env.redisOk = false then Except.error ()
  else
    match (if env.catalogReadOk then st.catalog else none) with
    | some cachedData => Except.ok (reclassifyCatalog cachedData, st)
    | none =>
        let exchanges := fetchAllExchanges env.pages
        let deduplicatedExchanges := dedupById exchanges
        let sorted := sortByName deduplicatedExchanges
        let st1 := if env.catalogWriteOk
          then { st with catalog := some sorted } else st
        Except.ok (sorted, st1)

/-! ### Identifier Map Builder (`getExchangeTypeMap`) -/

/-- One step of the catalog-merge loop: for a venue with truthy id and name,
record its name and overwrite the map entry with the catalog classification. -/
def catalogStep (acc : List (String × String) × List (String × Bool))
    (exchange : Exchange) : List (String × String) × List (String × Bool) :=
  if strTruthy exchange.id && strTruthy exchange.name then
    (mapSet acc.1 exchange.id exchange.name,
     mapSet acc.2 exchange.id exchange.centralized)
  else acc

/-- Fold the whole catalog into the names map and the type map. -/
def buildFromCatalog (allExchanges : List Exchange)
    (m0 : List (String × Bool)) :
    List (String × String) × List (String × Bool) :=
  allExchanges.foldl catalogStep ([], m0)

/-- `exchangeNamesMap.get(exchangeId) || exchangeId`. -/
def lookupName (names : List (String × String)) (exchangeId : String) : String :=
  match mapGet names exchangeId with
  | some n => if strTruthy n then n else exchangeId
  | none => exchangeId

/-- One step of the request-identifier re-classification loop (step 3 of the
builder): allow-list match sets `true`; keyword match forces `false`,
overriding any previous value; otherwise the entry is set to `true` only when
absent. -/
def tickerStep (names : List (String × String)) (m : List (String × Bool))
    (exchangeId : String) : List (String × Bool) :=
  let exchangeName := lookupName names exchangeId
  let normalizedId := toLowerStr exchangeId
  let normalizedName := toLowerStr exchangeName
  if knownCEXHit normalizedId normalizedName then
    mapSet m exchangeId true
  else if dexKeywordHit normalizedId normalizedName then
    mapSet m exchangeId false
  else if !(mapHas m exchangeId) then
    mapSet m exchangeId true
  else m

/-- `getExchangeTypeMap(exchangeIdentifiers)`. -/
def getExchangeTypeMap (env : Env) (st : CacheState)
    (exchangeIdentifiers : List String) :
    Except Unit (List (String × Bool) × CacheState) :=
  if env.redisOk = false then Except.error ()
  else
    let loaded : Option (List (String × Bool)) :=
      if env.mapReadOk then st.typeMap else none
    let exchangeMap : List (String × Bool) :=
      match loaded with
      | some parsed => mapFromPairs parsed
      | none => []
    let fastPath : Bool :=
      match loaded with
      | some _ =>
          (exchangeIdentifiers.filter fun id => !(mapHas exchangeMap id)).isEmpty
      | none => false
    if fastPath then Except.ok (exchangeMap, st)
    else
      match getAllExchangesWithCache env st with
      | Except.error e => Except.error e
      | Except.ok (allExchanges, st1) =>
          let built := buildFromCatalog allExchanges exchangeMap
          let finalMap := exchangeIdentifiers.foldl (tickerStep built.1) built.2
          let st2 := if env.mapWriteOk
            then { st1 with typeMap := some finalMap } else st1
          Except.ok (finalMap, st2)

/-! ### Association-map lemmas -/

theorem mapGet_set_self {α : Type} :
    ∀ (m : List (String × α)) (k : String) (v : α),
      mapGet (mapSet m k v) k = some v
  | [], k, v => by simp [mapSet, mapGet, strEq_refl]
  | p :: rest, k, v => by
      unfold mapSet
      by_cases hpk : strEq p.1 k = true
      · rw [if_pos hpk]
        unfold mapGet
        rw [if_pos hpk]
      · rw [if_neg hpk]
        unfold mapGet
        rw [if_neg hpk]
        exact mapGet_set_self rest k v

theorem mapGet_set_ne {α : Type} :
    ∀ (m : List (String × α)) (k' k : String) (v : α), k' ≠ k →
      mapGet (mapSet m k' v) k = mapGet m k
  | [], k', k, v, h => by
      simp [mapSet, mapGet, strEq_eq_false_iff.mpr h]
  | p :: rest, k', k, v, h => by
      unfold mapSet
      by_cases hpk : strEq p.1 k' = true
      · rw [if_pos hpk]
        have hp1 : p.1 ≠ k := by
          rw [strEq_iff.mp hpk]; exact h
        unfold mapGet
        rw [if_neg (by rw [strEq_eq_false_iff.mpr hp1]; exact Bool.noConfusion),
          if_neg (by rw [strEq_eq_false_iff.mpr hp1]; exact Bool.noConfusion)]
      · rw [if_neg hpk]
        unfold mapGet
        by_cases hk : strEq p.1 k = true
        · rw [if_pos hk, if_pos hk]
        · rw [if_neg hk, if_neg hk]
          exact mapGet_set_ne rest k' k v h

theorem mapHas_iff_get {α : Type} :
    ∀ (m : List (String × α)) (k : String),
      mapHas m k = true ↔ ∃ v, mapGet m k = some v
  | [], k => by simp [mapHas, mapGet]
  | p :: rest, k => by
      unfold mapHas mapGet
      by_cases hpk : strEq p.1 k = true
      · simp [hpk]
      · rw [if_neg hpk]
        simp only [List.any_cons, Bool.or_eq_true, hpk, Bool.false_eq_true,
          false_or]
        exact mapHas_iff_get rest k

theorem mapHas_set_self {α : Type} (m : List (String × α)) (k : String) (v : α) :
    mapHas (mapSet m k v) k = true :=
  (mapHas_iff_get _ _).mpr ⟨v, mapGet_set_self m k v⟩

theorem mapHas_set_mono {α : Type} (m : List (String × α)) (k' k : String)
    (v : α) (h : mapHas m k = true) : mapHas (mapSet m k' v) k = true := by
  by_cases hk : k' = k
  · rw [hk]
    exact mapHas_set_self m k v
  · obtain ⟨w, hw⟩ := (mapHas_iff_get _ _).mp h
    exact (mapHas_iff_get _ _).mpr
      ⟨w, by rw [mapGet_set_ne m k' k v hk]; exact hw⟩

/-! ### Step-3 (`tickerStep`) lemmas -/

theorem tickerStep_get_ne (names : List (String × String))
    (m : List (String × Bool)) (id k : String) (h : id ≠ k) :
    mapGet (tickerStep names m id) k = mapGet m k := by
  simp only [tickerStep]
  split
  · exact mapGet_set_ne m id k true h
  · split
    · exact mapGet_set_ne m id k false h
    · split
      · exact mapGet_set_ne m id k true h
      · rfl

theorem tickerStep_has_self (names : List (String × String))
    (m : List (String × Bool)) (id : String) :
    mapHas (tickerStep names m id) id = true := by
  simp only [tickerStep]
  split
  · exact mapHas_set_self m id true
  · split
    · exact mapHas_set_self m id false
    · split
      · exact mapHas_set_self m id true
      · rename_i hnot
        simpa using hnot

theorem tickerStep_has_mono (names : List (String × String))
    (m : List (String × Bool)) (id k : String) (h : mapHas m k = true) :
    mapHas (tickerStep names m id) k = true := by
  simp only [tickerStep]
  split
  · exact mapHas_set_mono m id k true h
  · split
    · exact mapHas_set_mono m id k false h
    · split
      · exact mapHas_set_mono m id k true h
      · exact h

theorem foldl_tickerStep_has_mono (names : List (String × String)) :
    ∀ (ids : List String) (m : List (String × Bool)) (k : String),
      mapHas m k = true →
      mapHas (ids.foldl (tickerStep names) m) k = true
  | [], _, _, h => h
  | a :: rest, m, k, h =>
      foldl_tickerStep_has_mono names rest (tickerStep names m a) k
        (tickerStep_has_mono names m a k h)

theorem foldl_tickerStep_covers (names : List (String × String)) :
    ∀ (ids : List String) (m : List (String × Bool)) (k : String),
      k ∈ ids → mapHas (ids.foldl (tickerStep names) m) k = true
  | a :: rest, m, k, hmem => by
      rw [List.foldl_cons]
      rcases List.mem_cons.mp hmem with h1 | h2
      · exact foldl_tickerStep_has_mono names rest (tickerStep names m a) k
          (h1 ▸ tickerStep_has_self names m a)
      · exact foldl_tickerStep_covers names rest (tickerStep names m a) k h2

/-! ### Claim C10 -/

/-- **C10.** Every successfully completing `getExchangeTypeMap` call returns a
map with an entry for every requested identifier: the fast path requires no
identifier to be missing, and step 3 gives every requested identifier an
entry. -/
theorem getExchangeTypeMap_total_coverage (env : Env) (st : CacheState)
    (ids : List String) (m : List (String × Bool)) (st' : CacheState)
    (h : getExchangeTypeMap env st ids = Except.ok (m, st')) :
    ∀ id ∈ ids, mapHas m id = true := by
  intro id hid
  simp only [getExchangeTypeMap] at h
  by_cases hr : env.redisOk = false
  · rw [if_pos hr] at h
    exact Except.noConfusion h
  · rw [if_neg hr] at h
    cases hload : (if env.mapReadOk = true then st.typeMap else none) with
    | none =>
        rw [hload] at h
        simp only at h
        rcases hget : getAllExchangesWithCache env st with e | pr
        · rw [hget] at h
          simp only at h
          exact Except.noConfusion h
        · obtain ⟨all, st1⟩ := pr
          rw [hget] at h
          simp only [Except.ok.injEq, Prod.mk.injEq] at h
          obtain ⟨rfl, -⟩ := h
          exact foldl_tickerStep_covers _ ids _ id hid
    | some parsed =>
        rw [hload] at h
        simp only at h
        by_cases hfast :
            (ids.filter fun i => !(mapHas (mapFromPairs parsed) i)).isEmpty = true
        · rw [if_pos hfast] at h
          simp only [Except.ok.injEq, Prod.mk.injEq] at h
          obtain ⟨rfl, -⟩ := h
          have hempty := List.isEmpty_iff.mp hfast
          have hall := List.filter_eq_nil_iff.mp hempty id hid
          simpa using hall
        · rw [if_neg hfast] at h
          rcases hget : getAllExchangesWithCache env st with e | pr
          · rw [hget] at h
            simp only at h
            exact Except.noConfusion h
          · obtain ⟨all, st1⟩ := pr
            rw [hget] at h
            simp only [Except.ok.injEq, Prod.mk.injEq] at h
            obtain ⟨rfl, -⟩ := h
            exact foldl_tickerStep_covers _ ids _ id hid

/-- **C10 witness.** A concrete slow-path run on a cold cache covers the one
requested identifier. -/
theorem getExchangeTypeMap_total_coverage_witness :
    mapHas [("aurora", true)] "aurora" = true :=
  getExchangeTypeMap_total_coverage
    { redisOk := true, catalogReadOk := true, catalogWriteOk := true,
      mapReadOk := true, mapWriteOk := true, pages := [] }
    { catalog := none, typeMap := none } ["aurora"] [("aurora", true)]
    { catalog := some [], typeMap := some [("aurora", true)] }
    (by rfl) "aurora" (by decide)

/-! ### Claim C5 -/

/-- **C5.** When the persisted Identifier Map parses and already contains an
entry for every requested identifier, `getExchangeTypeMap` returns that loaded
map unchanged, with the cache state untouched; and the result is the same for
*any* sequence of remote pages, i.e. no Collector fetch influences it. -/
theorem getExchangeTypeMap_fast_path (env : Env) (st : CacheState)
    (parsed : List (String × Bool)) (ids : List String)
    (hredis : env.redisOk = true) (hreadOk : env.mapReadOk = true)
    (hmap : st.typeMap = some parsed)
    (hall : ∀ id ∈ ids, mapHas (mapFromPairs parsed) id = true) :
    getExchangeTypeMap env st ids = Except.ok (mapFromPairs parsed, st) ∧
    ∀ pages' : List PageResult,
      getExchangeTypeMap { env with pages := pages' } st ids =
        Except.ok (mapFromPairs parsed, st) := by
  have hfilter : (ids.filter fun i => !(mapHas (mapFromPairs parsed) i)) = [] :=
    List.filter_eq_nil_iff.mpr fun i hi => by rw [hall i hi]; simp
  constructor
  · simp [getExchangeTypeMap, hredis, hreadOk, hmap, hfilter]
  · intro pages'
    simp [getExchangeTypeMap, hredis, hreadOk, hmap, hfilter]

/-- **C5 witness.** A concrete fast-path run: both requested identifiers are
already in the persisted map, which is returned unchanged. -/
theorem getExchangeTypeMap_fast_path_witness :
    getExchangeTypeMap
      { redisOk := true, catalogReadOk := true, catalogWriteOk := true,
        mapReadOk := true, mapWriteOk := true,
        pages := [PageResult.ok [{ id := some "uniswap" }]] }
      { catalog := none, typeMap := some [("binance", true), ("uniswap", false)] }
      ["uniswap", "binance"] =
    Except.ok ([("binance", true), ("uniswap", false)],
      { catalog := none, typeMap := some [("binance", true), ("uniswap", false)] }) :=
  (getExchangeTypeMap_fast_path _ _ [("binance", true), ("uniswap", false)]
    ["uniswap", "binance"] rfl rfl rfl (by decide)).1

/-! ### Value characterizations (shared helpers for the failure claims) -/

/-- The venue list a `getAllExchangesWithCache` run produces, as a function of
everything except the write outcome. -/
def catalogValue (env : Env) (st : CacheState) : List Exchange :=
  match (if env.catalogReadOk then st.catalog else none) with
  | some cachedData => reclassifyCatalog cachedData
  | none => sortByName (dedupById (fetchAllExchanges env.pages))

theorem getAllExchangesWithCache_ok (env : Env) (st : CacheState)
    (hredis : env.redisOk = true) :
    ∃ st1, getAllExchangesWithCache env st =
      Except.ok (catalogValue env st, st1) := by
  unfold getAllExchangesWithCache catalogValue
  rw [hredis, if_neg (by decide)]
  cases hsc : (if env.catalogReadOk = true then st.catalog else none) with
  | some cachedData => exact ⟨st, rfl⟩
  | none => exact ⟨_, rfl⟩

/-- The map a `getExchangeTypeMap` run produces, as a function of everything
except the write outcomes. -/
def typeMapValue (env : Env) (st : CacheState) (ids : List String) :
    List (String × Bool) :=
  match (if env.mapReadOk then st.typeMap else none) with
  | some parsed =>
      if (ids.filter fun i => !(mapHas (mapFromPairs parsed) i)).isEmpty then
        mapFromPairs parsed
      else
        (ids.foldl
          (tickerStep (buildFromCatalog (catalogValue env st) (mapFromPairs parsed)).1)
          (buildFromCatalog (catalogValue env st) (mapFromPairs parsed)).2)
  | none =>
      (ids.foldl
        (tickerStep (buildFromCatalog (catalogValue env st) []).1)
        (buildFromCatalog (catalogValue env st) []).2)

theorem getExchangeTypeMap_ok (env : Env) (st : CacheState) (ids : List String)
    (hredis : env.redisOk = true) :
    ∃ st2, getExchangeTypeMap env st ids =
      Except.ok (typeMapValue env st ids, st2) := by
  obtain ⟨st1, hget⟩ := getAllExchangesWithCache_ok env st hredis
  unfold getExchangeTypeMap typeMapValue
  rw [hredis, if_neg (by decide)]
  cases hsc : (if env.mapReadOk = true then st.typeMap else none) with
  | some parsed =>
      simp only
      by_cases hfast :
          (ids.filter fun i => !(mapHas (mapFromPairs parsed) i)).isEmpty = true
      · rw [if_pos hfast, if_pos hfast]
        exact ⟨st, rfl⟩
      · rw [if_neg hfast, if_neg hfast, hget]
        exact ⟨_, rfl⟩
  | none =>
      simp only
      rw [hget]
      exact ⟨_, rfl⟩

/-! ### Claim C4 -/

/-- **C4 counterexample.** The claim includes "cache store unreachable" among
the non-propagated failures, but `getRedisClient` runs *before* any
`try`/`catch`: with the connect failing, both operations throw. -/
theorem redis_connect_failure_propagates :
    getAllExchangesWithCache
      { redisOk := false, catalogReadOk := true, catalogWriteOk := true,
        mapReadOk := true, mapWriteOk := true, pages := [] }
      { catalog := none, typeMap := none } = Except.error () ∧
    getExchangeTypeMap
      { redisOk := false, catalogReadOk := true, catalogWriteOk := true,
        mapReadOk := true, mapWriteOk := true, pages := [] }
      { catalog := none, typeMap := none } ["binance"] = Except.error () :=
  ⟨rfl, rfl⟩

/-- **C4 (amended).** Once the cache client is obtained, cache *read* and
*write* failures are never propagated: both operations return `ok`; a failed
catalog read falls back to the live fetch; and a failed write changes only the
cache state, never the returned value. -/
theorem cache_rw_failures_nonfatal (env : Env) (st : CacheState)
    (ids : List String) (hredis : env.redisOk = true) :
    (∃ r, getAllExchangesWithCache env st = Except.ok r) ∧
    (∃ r, getExchangeTypeMap env st ids = Except.ok r) ∧
    (env.catalogReadOk = false →
      ∃ st1, getAllExchangesWithCache env st =
        Except.ok (sortByName (dedupById (fetchAllExchanges env.pages)), st1)) ∧
    ((getAllExchangesWithCache { env with catalogWriteOk := false } st).toOption.map
        Prod.fst =
      (getAllExchangesWithCache { env with catalogWriteOk := true } st).toOption.map
        Prod.fst) ∧
    ((getExchangeTypeMap { env with catalogWriteOk := false, mapWriteOk := false }
        st ids).toOption.map Prod.fst =
      (getExchangeTypeMap { env with catalogWriteOk := true, mapWriteOk := true }
        st ids).toOption.map Prod.fst) := by
  refine ⟨?_, ?_, ?_, ?_, ?_⟩
  · obtain ⟨st1, h⟩ := getAllExchangesWithCache_ok env st hredis
    exact ⟨_, h⟩
  · obtain ⟨st2, h⟩ := getExchangeTypeMap_ok env st ids hredis
    exact ⟨_, h⟩
  · intro hread
    obtain ⟨st1, h⟩ := getAllExchangesWithCache_ok env st hredis
    refine ⟨st1, ?_⟩
    rw [h]
    have hval : catalogValue env st =
        sortByName (dedupById (fetchAllExchanges env.pages)) := by
      unfold catalogValue
      rw [hread]
      rfl
    rw [hval]
  · obtain ⟨s1, h1⟩ :=
      getAllExchangesWithCache_ok { env with catalogWriteOk := false } st hredis
    obtain ⟨s2, h2⟩ :=
      getAllExchangesWithCache_ok { env with catalogWriteOk := true } st hredis
    rw [h1, h2]
    rfl
  · obtain ⟨s1, h1⟩ := getExchangeTypeMap_ok
      { env with catalogWriteOk := false, mapWriteOk := false } st ids hredis
    obtain ⟨s2, h2⟩ := getExchangeTypeMap_ok
      { env with catalogWriteOk := true, mapWriteOk := true } st ids hredis
    rw [h1, h2]
    rfl

/-- **C4 witness.** A concrete run with both cache writes failing returns
the same map as the run with both writes succeeding. -/
theorem cache_rw_failures_nonfatal_witness :
    (getExchangeTypeMap
        { redisOk := true, catalogReadOk := true, catalogWriteOk := false,
          mapReadOk := true, mapWriteOk := false, pages := [] }
        { catalog := none, typeMap := none } ["binance"]).toOption.map Prod.fst =
      (getExchangeTypeMap
        { redisOk := true, catalogReadOk := true, catalogWriteOk := true,
          mapReadOk := true, mapWriteOk := true, pages := [] }
        { catalog := none, typeMap := none } ["binance"]).toOption.map Prod.fst :=
  (cache_rw_failures_nonfatal
    { redisOk := true, catalogReadOk := true, catalogWriteOk := true,
      mapReadOk := true, mapWriteOk := true, pages := [] }
    { catalog := none, typeMap := none } ["binance"] rfl).2.2.2.2

/-! ### Claim C3 -/

/-- **C3 counterexample.** The claim says a cache hit re-runs the Classifier
on identifier/displayName *alone*, ignoring the cached `isCentralized`, so two
payloads differing only in that flag must classify identically.  But the
source passes the cached flag as the Classifier's fallback: for an entry
(`"aaa"`, `"aaa"`) matching neither list, the cached flag survives, and the
two runs differ. -/
theorem getAllExchangesWithCache_cached_flag_leaks :
    (getAllExchangesWithCache
        { redisOk := true, catalogReadOk := true, catalogWriteOk := true,
          mapReadOk := true, mapWriteOk := true, pages := [] }
        { catalog := some [{ id := "aaa", name := "aaa", centralized := false }],
          typeMap := none }).toOption.map
      (fun r => r.1.map fun e => e.centralized) = some [false] ∧
    (getAllExchangesWithCache
        { redisOk := true, catalogReadOk := true, catalogWriteOk := true,
          mapReadOk := true, mapWriteOk := true, pages := [] }
        { catalog := some [{ id := "aaa", name := "aaa", centralized := true }],
          typeMap := none }).toOption.map
      (fun r => r.1.map fun e => e.centralized) = some [true] :=
  ⟨rfl, rfl⟩

/-- **C3 (amended).** On a cache hit the payload is deduplicated and every
entry re-classified from its stored identifier/displayName — but with the
cached `isCentralized` supplied as the step-3 *fallback*, not ignored.
Consequently the cached flag cannot influence any entry matching the
allow-list or the keyword list, and an entry matching neither keeps exactly
its cached flag. -/
theorem getAllExchangesWithCache_hit_reclassifies (env : Env) (st : CacheState)
    (cachedData : List Exchange) (hredis : env.redisOk = true)
    (hread : env.catalogReadOk = true) (hcat : st.catalog = some cachedData) :
    getAllExchangesWithCache env st =
      Except.ok ((dedupById cachedData).map fun exchange =>
        { exchange with
          centralized := classifyExchange exchange.id exchange.name
            (some exchange.centralized) }, st) ∧
    (∀ (id name : String) (b b' : Bool),
      (matchesKnownCEX id name || matchesDEXKeyword id name) = true →
      classifyExchange id name (some b) = classifyExchange id name (some b')) ∧
    (∀ (id name : String) (b : Bool),
      (matchesKnownCEX id name || matchesDEXKeyword id name) = false →
      classifyExchange id name (some b) = b) := by
  refine ⟨?_, ?_, ?_⟩
  · unfold getAllExchangesWithCache
    rw [hredis, if_neg (by decide), hread]
    rw [if_pos rfl, hcat]
    rfl
  · intro id name b b' h
    unfold classifyExchange
    rcases Bool.or_eq_true _ _ ▸ h with h1 | h2
    · simp [h1]
    · by_cases h1 : matchesKnownCEX id name = true
      · simp [h1]
      · simp [h1, h2]
  · intro id name b h
    have h1 : matchesKnownCEX id name = false := by
      cases hc : matchesKnownCEX id name
      · rfl
      · rw [hc] at h
        exact Bool.noConfusion (Bool.true_or _ ▸ h)
    have h2 : matchesDEXKeyword id name = false := by
      cases hc : matchesDEXKeyword id name
      · rfl
      · rw [h1, hc] at h
        exact Bool.noConfusion h
    unfold classifyExchange
    rw [h1, h2]
    rfl

/-- **C3 witness.** Concrete cache-hit run on a one-entry payload, applying
the hit equation. -/
theorem getAllExchangesWithCache_hit_reclassifies_witness :
    getAllExchangesWithCache
      { redisOk := true, catalogReadOk := true, catalogWriteOk := true,
        mapReadOk := true, mapWriteOk := true, pages := [] }
      { catalog := some [{ id := "uniswap", name := "Uniswap", centralized := true }],
        typeMap := none } =
    Except.ok
      ((dedupById [{ id := "uniswap", name := "Uniswap", centralized := true }]).map
        fun exchange =>
          { exchange with
            centralized := classifyExchange exchange.id exchange.name
              (some exchange.centralized) },
        { catalog := some [{ id := "uniswap", name := "Uniswap", centralized := true }],
          typeMap := none }) :=
  (getAllExchangesWithCache_hit_reclassifies
    { redisOk := true, catalogReadOk := true, catalogWriteOk := true,
      mapReadOk := true, mapWriteOk := true, pages := [] }
    { catalog := some [{ id := "uniswap", name := "Uniswap", centralized := true }],
      typeMap := none }
    [{ id := "uniswap", name := "Uniswap", centralized := true }]
    rfl rfl rfl).1

/-! ### Claim C7 -/

/-- **C7 counterexample.** The claim says request-time evidence never
overrides an existing `false` map entry to `true`.  But the step-3 allow-list
branch sets `true` unconditionally: with a cached map `binance ↦ false` and a
request forcing the slow path, the returned map has `binance ↦ true`. -/
theorem request_override_to_cex_exists :
    (getExchangeTypeMap
        { redisOk := true, catalogReadOk := true, catalogWriteOk := true,
          mapReadOk := true, mapWriteOk := true, pages := [] }
        { catalog := some [], typeMap := some [("binance", false)] }
        ["binance", "zzz"]).toOption.map (fun r => mapGet r.1 "binance") =
      some (some true) := rfl

/-- **C7 (amended).** In step 3 of `getExchangeTypeMap` (the fold of
`tickerStep` over the requested identifiers), an existing `false` entry is
never overridden to `true` for an identifier whose id/looked-up name does
*not* match the known-CEX allow-list: the keyword branch re-forces `false` and
the default branch only fills absent entries.  (The allow-list branch is the
sole exception, as the counterexample shows.) -/
theorem tickerStep_no_override_to_cex (names : List (String × String)) :
    ∀ (ids : List String) (m : List (String × Bool)) (k : String),
      mapGet m k = some false →
      knownCEXHit (toLowerStr k) (toLowerStr (lookupName names k)) = false →
      mapGet (ids.foldl (tickerStep names) m) k = some false
  | [], _, _, hfalse, _ => hfalse
  | a :: rest, m, k, hfalse, hnoCEX => by
      rw [List.foldl_cons]
      by_cases hak : a = k
      · subst hak
        refine tickerStep_no_override_to_cex names rest _ a ?_ hnoCEX
        simp only [tickerStep, hnoCEX]
        rw [if_neg (by decide)]
        cases hkey : dexKeywordHit (toLowerStr a) (toLowerStr (lookupName names a))
        · rw [if_neg (by decide)]
          have hhas : mapHas m a = true := (mapHas_iff_get m a).mpr ⟨false, hfalse⟩
          rw [hhas]
          rw [if_neg (by decide)]
          exact hfalse
        · rw [if_pos rfl]
          exact mapGet_set_self m a false
      · exact tickerStep_no_override_to_cex names rest _ k
          (by rw [tickerStep_get_ne names m a k hak]; exact hfalse) hnoCEX

/-- **C7 witness.** A concrete step-3 fold that re-encounters an identifier
already mapped to `false` (no allow-list match) leaves it `false`. -/
theorem tickerStep_no_override_to_cex_witness :
    mapGet (["uniswap", "zzz"].foldl (tickerStep []) [("uniswap", false)])
      "uniswap" = some false :=
  tickerStep_no_override_to_cex [] ["uniswap", "zzz"] [("uniswap", false)]
    "uniswap" (by decide) (by decide)

/-! ### Lemmas for the map-merge precedence claim -/

theorem dedupGo_cons (x : Exchange) (rest : List Exchange) (seen : List String) :
    dedupGo (x :: rest) seen =
      if memberStr x.id seen then dedupGo rest seen
      else x :: dedupGo rest (x.id :: seen) := rfl

theorem dedupGo_append_split (k : String) :
    ∀ (pre rest : List Exchange) (seen : List String),
      (∀ a ∈ pre, a.id ≠ k) → memberStr k seen = false →
      ∃ A seen', dedupGo (pre ++ rest) seen = A ++ dedupGo rest seen' ∧
        (∀ a ∈ A, a.id ≠ k) ∧ memberStr k seen' = false
  | [], rest, seen, _, hseen =>
      ⟨[], seen, by simp, by simp, hseen⟩
  | p :: pre, rest, seen, hpre, hseen => by
      rw [List.cons_append, dedupGo_cons]
      by_cases hm : memberStr p.id seen = true
      · rw [if_pos hm]
        exact dedupGo_append_split k pre rest seen
          (fun a ha => hpre a (List.mem_cons_of_mem p ha)) hseen
      · rw [if_neg hm]
        have hpk : p.id ≠ k := hpre p (List.mem_cons_self p pre)
        have hseen2 : memberStr k (p.id :: seen) = false := by
          unfold memberStr
          rw [strEq_eq_false_iff.mpr hpk, hseen]
          rfl
        obtain ⟨A, seen', heq, hA, hs⟩ := dedupGo_append_split k pre rest
          (p.id :: seen) (fun a ha => hpre a (List.mem_cons_of_mem p ha)) hseen2
        refine ⟨p :: A, seen', ?_, ?_, hs⟩
        · rw [heq, List.cons_append]
        · intro a ha
          rcases List.mem_cons.mp ha with h1 | h2
          · rw [h1]; exact hpk
          · exact hA a h2

theorem buildFold_names_ne (k : String) :
    ∀ (exs : List Exchange)
      (acc : List (String × String) × List (String × Bool)),
      (∀ ex ∈ exs, ex.id ≠ k) →
      mapGet (exs.foldl catalogStep acc).1 k = mapGet acc.1 k
  | [], _, _ => rfl
  | e :: rest, acc, h => by
      rw [List.foldl_cons]
      rw [buildFold_names_ne k rest (catalogStep acc e)
        (fun a ha => h a (List.mem_cons_of_mem e ha))]
      unfold catalogStep
      split
      · exact mapGet_set_ne acc.1 e.id k e.name (h e (List.mem_cons_self e rest))
      · rfl

theorem buildFold_names_at (k : String) (e : Exchange) (hid : e.id = k)
    (htid : strTruthy e.id = true) (htn : strTruthy e.name = true)
    (rest : List Exchange)
    (acc : List (String × String) × List (String × Bool))
    (hrest : ∀ a ∈ rest, a.id ≠ k) :
    mapGet ((e :: rest).foldl catalogStep acc).1 k = some e.name := by
  rw [List.foldl_cons]
  rw [buildFold_names_ne k rest (catalogStep acc e) hrest]
  unfold catalogStep
  rw [if_pos (by rw [htid, htn]; rfl)]
  subst hid
  exact mapGet_set_self acc.1 e.id e.name

theorem buildFold_names_split (k : String) (A D : List Exchange) (e : Exchange)
    (acc0 : List (String × String) × List (String × Bool))
    (hD : ∀ d ∈ D, d.id ≠ k)
    (hid : e.id = k) (htid : strTruthy e.id = true)
    (htn : strTruthy e.name = true) :
    mapGet ((A ++ e :: D).foldl catalogStep acc0).1 k = some e.name := by
  rw [List.foldl_append]
  exact buildFold_names_at k e hid htid htn D _ hD

/-- Unfolding equation: a run of `getExchangeTypeMap` with no persisted
identifier map takes the slow path against the given catalog result. -/
theorem getExchangeTypeMap_cold (env : Env) (st : CacheState)
    (ids : List String) (hredis : env.redisOk = true)
    (htm : st.typeMap = none) (all : List Exchange) (st1 : CacheState)
    (hget : getAllExchangesWithCache env st = Except.ok (all, st1)) :
    ∃ st2, getExchangeTypeMap env st ids = Except.ok
      (ids.foldl (tickerStep (buildFromCatalog all []).1)
        (buildFromCatalog all []).2, st2) := by
  unfold getExchangeTypeMap
  rw [hredis, if_neg (by decide), htm, ite_self, hget]
  exact ⟨_, rfl⟩

/-! ### Claim C2 -/

/-- **C2.** For every catalog whose (unique) entry for identifier `"x"` has
display name `"Foo Swap"` — whatever its stored `isCentralized` — a
`buildMap (["x"])` request with no persisted identifier map returns a map
sending `"x"` to `false`: the step-3 keyword match on `"swap"` forces the
entry to `false`, overwriting the catalog-derived value. -/
theorem getExchangeTypeMap_keyword_forces_dex (env : Env) (st : CacheState)
    (e0 : Exchange) (pre post : List Exchange)
    (hredis : env.redisOk = true) (hread : env.catalogReadOk = true)
    (hid : e0.id = "x") (hname : e0.name = "Foo Swap")
    (hcat : st.catalog = some (pre ++ e0 :: post)) (htm : st.typeMap = none)
    (hpre : ∀ a ∈ pre, a.id ≠ "x") (hpost : ∀ a ∈ post, a.id ≠ "x") :
    ∃ m st', getExchangeTypeMap env st ["x"] = Except.ok (m, st') ∧
      mapGet m "x" = some false := by
  have hget : getAllExchangesWithCache env st =
      Except.ok (reclassifyCatalog (pre ++ e0 :: post), st) := by
    unfold getAllExchangesWithCache
    rw [hredis, if_neg (by decide), hread, if_pos rfl, hcat]
  obtain ⟨A, seen', hsplit, hA, hseen'⟩ :=
    dedupGo_append_split "x" pre (e0 :: post) [] hpre rfl
  have hstep : dedupGo (e0 :: post) seen' =
      e0 :: dedupGo post (e0.id :: seen') := by
    have hmem : ¬ memberStr e0.id seen' = true := by
      rw [hid, hseen']
      simp
    rw [dedupGo_cons, if_neg hmem]
  have hrcprops : ∃ A' e0' D',
      reclassifyCatalog (pre ++ e0 :: post) = A' ++ e0' :: D' ∧
      (∀ d ∈ D', d.id ≠ "x") ∧
      e0'.id = "x" ∧ e0'.name = "Foo Swap" := by
    refine ⟨A.map reclassifyEntry, reclassifyEntry e0,
      (dedupGo post (e0.id :: seen')).map reclassifyEntry, ?_, ?_, ?_, ?_⟩
    · unfold reclassifyCatalog dedupById
      rw [hsplit, hstep, List.map_append, List.map_cons]
    · intro a ha
      obtain ⟨d, hd, rfl⟩ := List.mem_map.mp ha
      exact hpost d (mem_of_mem_dedupGo post _ d hd)
    · exact hid
    · exact hname
  obtain ⟨A', e0', D', hrceq, hD', hid', hname'⟩ := hrcprops
  have hnames : mapGet
      (buildFromCatalog (reclassifyCatalog (pre ++ e0 :: post)) []).1 "x" =
      some "Foo Swap" := by
    unfold buildFromCatalog
    rw [hrceq]
    rw [buildFold_names_split "x" A' D' e0' ([], []) hD' hid'
      (by rw [hid']; decide) (by rw [hname']; decide)]
    rw [hname']
  obtain ⟨st2, heq⟩ := getExchangeTypeMap_cold env st ["x"] hredis htm _ _ hget
  refine ⟨_, st2, heq, ?_⟩
  have hlook : lookupName
      (buildFromCatalog (reclassifyCatalog (pre ++ e0 :: post)) []).1 "x" =
      "Foo Swap" := by
    unfold lookupName
    rw [hnames]
    rfl
  rw [List.foldl_cons, List.foldl_nil]
  simp only [tickerStep, hlook]
  rw [show knownCEXHit (toLowerStr "x") (toLowerStr "Foo Swap") = false from
    by decide]
  rw [if_neg (by decide)]
  rw [show dexKeywordHit (toLowerStr "x") (toLowerStr "Foo Swap") = true from
    by decide]
  rw [if_pos rfl]
  exact mapGet_set_self _ "x" false

/-- **C2 witness.** The spec's own test case, with a singleton catalog and a
mis-flagged `isCentralized := true`: the returned map sends `"x"` to
`false`. -/
theorem getExchangeTypeMap_keyword_forces_dex_witness :
    ((getExchangeTypeMap
      { redisOk := true, catalogReadOk := true, catalogWriteOk := true,
        mapReadOk := true, mapWriteOk := true, pages := [] }
      { catalog := some [{ id := "x", name := "Foo Swap", centralized := true }],
        typeMap := none } ["x"]).toOption.map
      (fun r => mapGet r.1 "x")) = some (some false) := by
  obtain ⟨m, st', heq, hm⟩ := getExchangeTypeMap_keyword_forces_dex
    { redisOk := true, catalogReadOk := true, catalogWriteOk := true,
      mapReadOk := true, mapWriteOk := true, pages := [] }
    { catalog := some [{ id := "x", name := "Foo Swap", centralized := true }],
      typeMap := none }
    { id := "x", name := "Foo Swap", centralized := true } [] []
    rfl rfl rfl rfl rfl rfl (by simp) (by simp)
  rw [heq]
  simp only [Except.toOption, Option.map]
  rw [hm]

end BlockchainAnalyzer
